import Mathlib

/-!
Verification of the EXPLAINIUM knowledge extraction engine
(`app/extraction/knowledge.py`, in its PH-1 and Phase1 variants).

Modelling conventions:
* a Python `str` is a `List Char` (a sequence of code points);
* Python floats are modelled as exact rationals `ℚ`;
* the `re` patterns of the module are given a small executable matcher
  (`RE`, `mat`) with Python's preference order (alternatives left to
  right, greedy repetition, leftmost scan) and `\b` word boundaries;
  recursion of the matcher is driven by fuel, which is large enough for
  every concrete evaluation below, and which no universally quantified
  theorem depends on (they use only the direction "if a match was
  produced then ...").
-/

/-- A Python `str`: a sequence of code points. -/
abbrev Str := List Char

/-- Python whitespace (the characters `str.strip`, `str.split` and `\s` use). -/
def pySpace (c : Char) : Bool :=
  c = ' ' || c = '\t' || c = '\n' || c = '\r' || c = '\x0b' || c = '\x0c'

/-- A word character for `\b` (`[A-Za-z0-9_]`; the module's texts are ASCII). -/
def wordChar (c : Char) : Bool := c.isAlpha || c.isDigit || c = '_'

/-- Python `str.lower()`. -/
def lowerStr (s : Str) : Str := s.map Char.toLower

/-- Python `str.strip()`: remove leading and trailing whitespace. -/
def pyStrip (s : Str) : Str :=
  ((s.dropWhile pySpace).reverse.dropWhile pySpace).reverse

/-- Python `str.isupper()`: at least one cased character and no lowercase one. -/
def pyIsUpper (s : Str) : Bool :=
  s.any (fun c => c.isUpper || c.isLower) && s.all (fun c => !c.isLower)

/-- Python `needle in hay` on strings: contiguous substring test. -/
def containsSub (needle hay : Str) : Bool :=
  (List.range (hay.length + 1)).any (fun i => needle.isPrefixOf (hay.drop i))

/-- Python slicing `s[a:b]` for `0 ≤ a ≤ b` (indices clamped by `take`/`drop`). -/
def pySlice (s : Str) (a b : Nat) : Str := (s.take b).drop a

/-- Helper of `splitWs`, carrying the current word reversed. -/
def splitWsAux : Str → Str → List Str
  | [], acc => if acc.isEmpty then [] else [acc.reverse]
  | c :: t, acc =>
      if pySpace c then
        if acc.isEmpty then splitWsAux t [] else acc.reverse :: splitWsAux t []
      else splitWsAux t (c :: acc)

/-- Python `str.split()` with no argument: split on whitespace runs, no empty
words in the result. -/
def splitWs (s : Str) : List Str := splitWsAux s []

/-- One step of Python's stable sort, modelled as ordered insertion:
`keep h e = true` says the already placed element `h` stays in front of the
newly inserted, later element `e`. -/
def pyInsert (keep : α → α → Bool) : List α → α → List α
  | [], e => [e]
  | h :: t, e => if keep h e then h :: pyInsert keep t e else e :: h :: t

/-- Python's stable `sorted`: `keep a b = true` iff `a`, earlier in the input,
stays before a later `b` (for `sorted(key=k)` this is `k a ≤ k b`; for
`sort(key=k, reverse=True)` it is `k a ≥ k b`). -/
def pySort (keep : α → α → Bool) (l : List α) : List α :=
  l.foldl (pyInsert keep) []

/-- The fragment of Python `re` syntax the knowledge module uses. -/
inductive RE where
  | eps : RE
  | bnd : RE
  | cls : (Char → Bool) → RE
  | cat : RE → RE → RE
  | alt : RE → RE → RE
  | quest : RE → RE
  | rep : RE → Nat → Option Nat → RE

/-- Whether position `i` of `text` holds a word character. -/
def isWordAt (text : Str) (i : Nat) : Bool :=
  match text[i]? with
  | some c => wordChar c
  | none => false

/-- The `\b`: a word character on exactly one side of position `p`. -/
def wordBoundary (text : Str) (p : Nat) : Bool :=
  (if p = 0 then false else isWordAt text (p - 1)) != isWordAt text p

/-- Backtracking matcher in continuation style, following Python's preference
order: alternatives left to right, repetition greedy (`rep r lo hi` is
`r{lo,hi}`, `hi = none` unbounded). `mat text f r p k` matches `r` at
position `p` of `text` and passes the end position to the continuation `k`;
the fuel `f` bounds the recursion depth. -/
def mat (text : Str) : Nat → RE → Nat → (Nat → Option Nat) → Option Nat
  | 0, _, _, _ => none
  | f + 1, r, p, k =>
    match r with
    | .eps => k p
    | .bnd => if wordBoundary text p then k p else none
    | .cls cl =>
        match text[p]? with
        | some c => if cl c then k (p + 1) else none
        | none => none
    | .cat a b => mat text f a p (fun q => mat text f b q k)
    | .alt a b =>
        match mat text f a p k with
        | some e => some e
        | none => mat text f b p k
    | .quest a =>
        match mat text f a p k with
        | some e => some e
        | none => k p
    | .rep a lo hi =>
        match lo with
        | l + 1 => mat text f a p (fun q => mat text f (.rep a l (hi.map (· - 1))) q k)
        | 0 =>
          if hi = some 0 then k p
          else
            match mat text f a p
                (fun q => if p < q then mat text f (.rep a 0 (hi.map (· - 1))) q k
                          else none) with
            | some e => some e
            | none => k p

/-- A size measure used only to pick a comfortable fuel. -/
def reSize : RE → Nat
  | .eps => 1
  | .bnd => 1
  | .cls _ => 1
  | .cat a b => reSize a + reSize b + 1
  | .alt a b => reSize a + reSize b + 1
  | .quest a => reSize a + 1
  | .rep a _ hi => (reSize a + 2) * ((match hi with | some h => h | none => 0) + 2)

/-- Fuel that is ample for the module's patterns on the texts evaluated here. -/
def matFuel (text : Str) (r : RE) : Nat := (reSize r + 4) * (text.length + 4)

/-- The `re` match attempt anchored at position `p` (what `re.match` does at 0 and
what the `finditer` scan does at each position): the end of the match, if any. -/
def matchAt (text : Str) (r : RE) (p : Nat) : Option Nat :=
  mat text (matFuel text r) r p some

/-- Helper of `finditer`: scan positions left to right, resuming after each
match (advancing at least one position). -/
def finditAux (text : Str) (r : RE) : Nat → Nat → List (Nat × Nat)
  | 0, _ => []
  | f + 1, p =>
    if text.length < p then []
    else
      match matchAt text r p with
      | some e => (p, e) :: finditAux text r f (max e (p + 1))
      | none => finditAux text r f (p + 1)

/-- Python `re.finditer`: the `(start, end)` spans of the non-overlapping,
leftmost matches. -/
def finditer (r : RE) (text : Str) : List (Nat × Nat) :=
  finditAux text r (text.length + 1) 0

/-- Python `re.findall` for a pattern with no capturing group: the matched
substrings. -/
def findall (r : RE) (text : Str) : List Str :=
  (finditer r text).map (fun pe => pySlice text pe.1 pe.2)

/-- A case-sensitive literal character. -/
def chr (c : Char) : RE := .cls (fun x => x = c)

/-- A literal character under `re.IGNORECASE`. -/
def chrCI (c : Char) : RE := .cls (fun x => x.toLower = c.toLower)

/-- A case-sensitive literal string. -/
def strRE (s : String) : RE := s.data.foldr (fun c r => .cat (chr c) r) .eps

/-- A literal string under `re.IGNORECASE`. -/
def strCI (s : String) : RE := s.data.foldr (fun c r => .cat (chrCI c) r) .eps

/-- Alternation over a list, left to right. -/
def altL : List RE → RE
  | [] => .cls (fun _ => false)
  | [r] => r
  | r :: rs => .alt r (altL rs)

/-- The `(?:w1|w2|...)` over literal words, `re.IGNORECASE`. -/
def altStrsCI (ss : List String) : RE := altL (ss.map strCI)

/-- The `(?:w1|w2|...)` over literal words, case-sensitive. -/
def altStrs (ss : List String) : RE := altL (ss.map strRE)

/-- The `\d`. -/
def dgt : RE := .cls Char.isDigit

/-- The `\s`. -/
def wsp : RE := .cls pySpace

/-- The `[A-Z]` (case-sensitive): code point in 65..90, i.e. `Char.isUpper`. -/
def ucase : RE := .cls Char.isUpper

/-- The `[a-z]` (case-sensitive): code point in 97..122, i.e. `Char.isLower`. -/
def lcase : RE := .cls Char.isLower

/-- The `[A-Z]` or `[a-z]` under `re.IGNORECASE`: any ASCII letter. -/
def alphaCI : RE := .cls (fun c => c.isAlpha)

/-- The `r+`. -/
def plus (r : RE) : RE := .rep r 1 none

/-- The `r*`. -/
def star (r : RE) : RE := .rep r 0 none

/-- The `r{lo,hi}`. -/
def repn (r : RE) (lo hi : Nat) : RE := .rep r lo (some hi)

/-- The `r{lo,}`. -/
def atLeast (r : RE) (lo : Nat) : RE := .rep r lo none

/-- The `\b r \b`. -/
def wb (r : RE) : RE := .cat .bnd (.cat r .bnd)

/-- The `r1 r2 ... rn` as a single concatenation. -/
def catL : List RE → RE
  | [] => .eps
  | [r] => r
  | r :: rs => .cat r (catL rs)

/-! ## Data model (`knowledge.py`, shared by both variants) -/

/-- An extracted entity (dataclass `Entity`). -/
structure Entity where
  text : Str
  label : String
  start : Nat
  «end» : Nat
  confidence : ℚ
deriving DecidableEq, Repr

/-- A relationship between entities (dataclass `Relationship`). -/
structure Relationship where
  source_entity : Str
  target_entity : Str
  relationship_type : String
  confidence : ℚ
  context : Str
deriving DecidableEq, Repr

/-- A content classification (dataclass `ContentCategory`). -/
structure ContentCategory where
  category : String
  confidence : ℚ
  keywords : List Str
deriving DecidableEq, Repr

/-! ## PH-1 entity recognizer (`PH-1/app/extraction/knowledge.py`) -/

namespace PH1

/-- The `"ORGANIZATION"` patterns of `entity_patterns`. -/
def organization_patterns : List RE :=
  [ wb (strCI "EXPLAINIUM"),
    wb (altStrsCI ["Turku UAS", "Turku University", "Nokia", "Microsoft", "Google",
      "Apple", "Amazon", "Meta", "Tesla"]),
    catL [.bnd, alphaCI, plus alphaCI, star (catL [plus wsp, alphaCI, plus alphaCI]),
      plus wsp,
      altStrsCI ["Inc", "Corp", "Ltd", "LLC", "Group", "Company", "Organization",
        "University", "Institute"], .bnd] ]

/-- The `"TECHNOLOGY"` patterns of `entity_patterns`. -/
def technology_patterns : List RE :=
  [ wb (strCI "Natural Language Processing"),
    wb (altStrsCI ["Machine Learning", "Artificial Intelligence", "Computer Vision", "OCR"]),
    wb (altStrsCI ["AI", "ML", "NLP", "API", "FastAPI", "Python", "PostgreSQL", "SQLite"]),
    catL [.bnd, strCI "PH-", plus dgt, .bnd] ]

/-- The `"LOCATION"` patterns of `entity_patterns`. -/
def location_patterns : List RE :=
  [ wb (altStrsCI ["Finland", "Helsinki", "Turku", "Stockholm", "Copenhagen", "Oslo",
      "London", "Berlin", "Paris", "New York", "California", "Europe", "Nordic"]) ]

/-- The `"DATE"` patterns of `entity_patterns`. -/
def date_patterns : List RE :=
  [ wb (altStrsCI ["2024", "2023", "2025", "2022"]),
    catL [.bnd,
      altStrsCI ["January", "February", "March", "April", "May", "June", "July",
        "August", "September", "October", "November", "December"],
      plus wsp, repn dgt 1 2, .quest (chr ','), plus wsp, repn dgt 4 4, .bnd],
    catL [.bnd, repn dgt 1 2, .cls (fun c => c = '/' || c = '-'), repn dgt 1 2,
      .cls (fun c => c = '/' || c = '-'), repn dgt 2 4, .bnd] ]

/-- The `"EQUIPMENT"` patterns of `entity_patterns`. -/
def equipment_patterns : List RE :=
  [ catL [.bnd, altStrsCI ["Model number", "Version"], chr ':', star wsp,
      plus (.cls (fun c => c.isAlpha || c.isDigit || c = '.' || c = '-')), .bnd],
    catL [.bnd, strCI "version", plus wsp, plus dgt, chr '.', plus dgt,
      .quest (catL [chr '.', plus dgt]), .bnd] ]

/-- The `"PROCESS"` patterns of `entity_patterns`. -/
def process_patterns : List RE :=
  [ wb (altStrsCI ["text extraction", "knowledge extraction", "document processing",
      "compliance checking", "document management"]) ]

/-- The `entity_patterns` of `extract_entities`, in dict insertion order. -/
def entity_patterns : List (String × List RE) :=
  [ ("ORGANIZATION", organization_patterns),
    ("TECHNOLOGY", technology_patterns),
    ("LOCATION", location_patterns),
    ("DATE", date_patterns),
    ("EQUIPMENT", equipment_patterns),
    ("PROCESS", process_patterns) ]

end PH1

/-- The `r'\b\d{4}\b'` as used by `calculate_entity_confidence` on a `"DATE"` match
(`re.match`, i.e. anchored at position 0). -/
def dateYearRe : RE := catL [.bnd, repn dgt 4 4, .bnd]

/-- The stop-word set `common_words` of `calculate_entity_confidence`. -/
def common_words : List Str :=
  ["the", "and", "or", "but", "in", "on", "at", "to", "for", "of", "with", "by"].map
    String.data

/-- The `calculate_entity_confidence(text, label, full_text, start, end)`:
base 0.7; `+0.1` if `len(text) > 10`, else `-0.2` if `len(text) < 4`;
`+0.1` if `text[0].isupper()`; `+0.15` for the TECHNOLOGY / ORGANIZATION
keyword tests, `+0.1` for the DATE leading-year test; `-0.4` if the
lower-cased text is a stop word; clamped to `[0, 1]`.
(On empty `text` Python would raise at `text[0]`; the recognizer only passes
stripped matches of length at least 2.) -/
def calculate_entity_confidence (text : Str) (label : String) (full_text : Str)
    (start fin : Nat) : ℚ :=
  let base0 : ℚ := 7/10
  let base1 :=
    if 10 < text.length then base0 + 1/10
    else if text.length < 4 then base0 - 2/10
    else base0
  let base2 :=
    match text with
    | c :: _ => if c.isUpper then base1 + 1/10 else base1
    | [] => base1
  let base3 :=
    if label = "TECHNOLOGY" &&
        (["processing", "learning", "intelligence", "vision"].map String.data).any
          (fun kw => containsSub kw (lowerStr text)) then base2 + 15/100
    else if label = "ORGANIZATION" &&
        (["inc", "corp", "ltd", "university", "institute"].map String.data).any
          (fun kw => containsSub kw (lowerStr text)) then base2 + 15/100
    else if label = "DATE" && (matchAt text dateYearRe 0).isSome then base2 + 1/10
    else base2
  let base4 := if common_words.contains (lowerStr text) then base3 - 4/10 else base3
  max 0 (min 1 base4)

/-- The key `(entity.text.lower(), entity.start, entity.end)` used by
`remove_duplicate_entities`. -/
def dedupKey (e : Entity) : Str × Nat × Nat := (lowerStr e.text, e.start, e.«end»)

/-- The loop of `remove_duplicate_entities`, with the `seen` set made explicit. -/
def removeDupAux (seen : List (Str × Nat × Nat)) : List Entity → List Entity
  | [] => []
  | e :: t =>
      if seen.contains (dedupKey e) then removeDupAux seen t
      else e :: removeDupAux (dedupKey e :: seen) t

/-- The `remove_duplicate_entities`: keep the first entity of each distinct key. -/
def remove_duplicate_entities (entities : List Entity) : List Entity :=
  removeDupAux [] entities

/-- The comparison of `sorted(entities, key=lambda e: e.start)`. -/
def keepByStart (a b : Entity) : Bool := decide (a.start ≤ b.start)

/-- The scan of `filter_overlapping_entities`: `last` is `filtered[-1]`,
`accRev` the earlier accepted entities in reverse. On overlap
(`current.start < last.end`) the last accepted entity is replaced exactly
when `current.confidence > last.confidence`; otherwise `current` is accepted. -/
def scanOv : Entity → List Entity → List Entity → List Entity
  | last, accRev, [] => (last :: accRev).reverse
  | last, accRev, current :: rest =>
      if current.start < last.«end» then
        if last.confidence < current.confidence then scanOv current accRev rest
        else scanOv last accRev rest
      else scanOv current (last :: accRev) rest

/-- The `filter_overlapping_entities`: sort by start offset, then resolve overlaps
left to right. -/
def filter_overlapping_entities (entities : List Entity) : List Entity :=
  match pySort keepByStart entities with
  | [] => []
  | first :: rest => scanOv first [] rest

/-- The `PH-1`'s `extract_entities`: pattern matches, stripped, length-filtered,
scored, threshold 0.7, then deduplicated and overlap-resolved. -/
def PH1.extract_entities (text : Str) : List Entity :=
  let entities :=
    PH1.entity_patterns.flatMap (fun lp =>
      lp.2.flatMap (fun pattern =>
        (finditer pattern text).filterMap (fun se =>
          let matched_text := pyStrip (pySlice text se.1 se.2)
          if matched_text.length < 2 then none
          else
            let confidence := calculate_entity_confidence matched_text lp.1 text se.1 se.2
            if 7/10 ≤ confidence then
              some ⟨matched_text, lp.1, se.1, se.2, confidence⟩
            else none)))
  filter_overlapping_entities (remove_duplicate_entities entities)

/-! ## Relationship inferencer (identical in both variants) -/

/-- The `relationship_rules` table of `determine_relationship_type`. -/
def relationship_rules : List ((String × String) × String) :=
  [ (("PERSONNEL", "EQUIPMENT"), "OPERATES"),
    (("PERSONNEL", "SAFETY"), "FOLLOWS"),
    (("EQUIPMENT", "PROCESS"), "CONTROLS"),
    (("SAFETY", "PROCESS"), "PROTECTS"),
    (("EQUIPMENT", "EQUIPMENT"), "CONNECTS_TO"),
    (("PERSONNEL", "PERSONNEL"), "REPORTS_TO") ]

/-- The `determine_relationship_type`: look the pair up in both orders. -/
def determine_relationship_type (label1 label2 : String) : Option String :=
  match relationship_rules.lookup (label1, label2) with
  | some t => some t
  | none => relationship_rules.lookup (label2, label1)

/-- The context window of `extract_relationships`:
`text[max(0, min(start1, start2) - 25) : min(len(text), max(end1, end2) + 25)]`
(the lower clamp is the truncation of `Nat` subtraction). -/
def relContext (text : Str) (e1 e2 : Entity) : Str :=
  pySlice text (min e1.start e2.start - 25) (min text.length (max e1.«end» e2.«end» + 25))

/-- The body of the inner loop of `extract_relationships` for the pair
`(entity1, entity2)`: a relationship exactly when the starts are within 50
characters and the label pair is in the rules table. -/
def mkRelationship (text : Str) (e1 e2 : Entity) : Option Relationship :=
  if Nat.dist e1.start e2.start < 50 then
    match determine_relationship_type e1.label e2.label with
    | some rel_type => some ⟨e1.text, e2.text, rel_type, 7/10, relContext text e1 e2⟩
    | none => none
  else none

/-- The `extract_relationships(text, entities)`: the double loop over pairs
`(i, j)` with `i < j`, in loop order. -/
def extract_relationships (text : Str) : List Entity → List Relationship
  | [] => []
  | e1 :: rest => rest.filterMap (mkRelationship text e1) ++ extract_relationships text rest

/-! ## Content classifier (identical in both variants) -/

/-- The `category_keywords` catalog of `classify_content`, in dict order. -/
def category_keywords : List (String × List Str) :=
  [ ("SAFETY_MANUAL",
      ["safety", "hazard", "PPE", "OSHA", "emergency", "accident", "injury",
        "lockout", "tagout", "confined space", "chemical", "MSDS"].map String.data),
    ("MAINTENANCE_PROCEDURE",
      ["maintenance", "repair", "service", "inspection", "lubrication",
        "replacement", "troubleshooting", "preventive", "scheduled"].map String.data),
    ("OPERATING_INSTRUCTION",
      ["operation", "startup", "shutdown", "procedure", "step", "instruction",
        "control", "monitor", "adjust", "setting"].map String.data),
    ("TRAINING_MATERIAL",
      ["training", "course", "lesson", "certification", "competency",
        "skill", "knowledge", "assessment", "qualification"].map String.data),
    ("TECHNICAL_SPECIFICATION",
      ["specification", "technical", "drawing", "schematic", "blueprint",
        "dimension", "tolerance", "material", "standard"].map String.data) ]

/-- The comparison of `categories.sort(key=lambda x: x.confidence, reverse=True)`. -/
def keepByConfDesc (a b : ContentCategory) : Bool := decide (b.confidence ≤ a.confidence)

/-- The `classify_content`: keyword-density scoring per category, threshold 0.3,
sorted by confidence descending (stable). -/
def classify_content (text : Str) : List ContentCategory :=
  let text_lower := lowerStr text
  let categories := category_keywords.filterMap (fun ck =>
    let nMatches := (ck.2.filter (fun kw => containsSub (lowerStr kw) text_lower)).length
    if 0 < nMatches then
      let confidence : ℚ := min (95/100) ((nMatches : ℚ) / (ck.2.length : ℚ) * 2)
      if 3/10 < confidence then
        some ⟨ck.1, confidence, ck.2.filter (fun kw => containsSub (lowerStr kw) text_lower)⟩
      else none
    else none)
  pySort keepByConfDesc categories

/-! ## Key phrase extractor -/

/-- The per-match score of `extract_key_phrases`:
`len(match.split()) * 0.3 + (1.0 if match[0].isupper() else 0.5)`.
(Python indexes `match[0]`; every pattern match is non-empty, and the default
used for an empty list is immaterial.) -/
def phraseScore (m : Str) : ℚ :=
  ((splitWs m).length : ℚ) * (3/10) + (if (m.headD 'a').isUpper then 1 else 1/2)

/-- The comparison of `unique_phrases.sort(key=lambda x: x[1], reverse=True)`. -/
def keepByScoreDesc (a b : Str × ℚ) : Bool := decide (b.2 ≤ a.2)

/-- The loop behind `kpDedup`, with the seen set explicit. -/
def kpDedupAux (seen : List (Str × ℚ)) : List (Str × ℚ) → List (Str × ℚ)
  | [] => []
  | h :: t => if seen.contains h then kpDedupAux seen t else h :: kpDedupAux (h :: seen) t

/-- The `list(set(phrases))`: one copy of each distinct `(phrase, score)` pair.
A Python set iterates in an unspecified order; first-occurrence order is used
here (no claim below depends on the order before sorting). -/
def kpDedup (l : List (Str × ℚ)) : List (Str × ℚ) := kpDedupAux [] l

/-- The body of `extract_key_phrases` shared by both variants, after the
choice of pattern list: score all matches, deduplicate the pairs, sort by
score descending, truncate to `max_phrases`. -/
def extract_key_phrases_core (patterns : List RE) (text : Str) (max_phrases : Nat) :
    List (Str × ℚ) :=
  let phrases := patterns.flatMap (fun pattern =>
    (findall pattern text).map (fun m => (m, phraseScore m)))
  (pySort keepByScoreDesc (kpDedup phrases)).take max_phrases

/-- The `r'\b(?:[A-Z][a-z]+\s+){1,3}[A-Z][a-z]+\b'` (capitalized phrases). -/
def kpCapitalized : RE :=
  catL [.bnd, repn (catL [ucase, plus lcase, plus wsp]) 1 3, ucase, plus lcase, .bnd]

/-- The `r'\b\d+\s*(?:PSI|RPM|°F|°C|GPM|CFM|Hz|mm|cm|inch|ft)\b'` (measurements). -/
def kpMeasurement : RE :=
  catL [.bnd, plus dgt, star wsp,
    altStrs ["PSI", "RPM", "°F", "°C", "GPM", "CFM", "Hz", "mm", "cm", "inch", "ft"], .bnd]

/-- The `r'\b[A-Z]{2,}-\d+\b'` (technical codes). -/
def kpCode : RE := catL [.bnd, atLeast ucase 2, chr '-', plus dgt, .bnd]

/-- The `r'\b(?:step|procedure|process|method|technique)\s+\d+\b'` (Phase1 only). -/
def kpProcedural : RE :=
  catL [.bnd, altStrs ["step", "procedure", "process", "method", "technique"],
    plus wsp, plus dgt, .bnd]

/-- The `phrase_patterns` of PH-1's `extract_key_phrases`. -/
def PH1.phrase_patterns : List RE := [kpCapitalized, kpMeasurement, kpCode]

/-- PH-1's `extract_key_phrases` (default `max_phrases` in Python is 10). -/
def PH1.extract_key_phrases (text : Str) (max_phrases : Nat) : List (Str × ℚ) :=
  extract_key_phrases_core PH1.phrase_patterns text max_phrases

/-- The `phrase_patterns` of Phase1's `extract_key_phrases`. -/
def Phase1.phrase_patterns : List RE := [kpCapitalized, kpMeasurement, kpCode, kpProcedural]

/-- Phase1's `extract_key_phrases` (default `max_phrases` in Python is 10). -/
def Phase1.extract_key_phrases (text : Str) (max_phrases : Nat) : List (Str × ℚ) :=
  extract_key_phrases_core Phase1.phrase_patterns text max_phrases

/-! ## Phase1 entity recognizer (`Phase1/app/extraction/knowledge.py`) -/

namespace Phase1

/-- The `equipment_patterns` of Phase1's `extract_entities`. -/
def equipment_patterns : List RE :=
  [ catL [.bnd, altStrsCI ["pump", "motor", "valve", "sensor", "conveyor", "robot",
      "machine", "equipment"], star wsp,
      .quest (.alt (catL [.quest (chr '#'), plus dgt]) (catL [alphaCI, plus dgt])), .bnd],
    catL [.bnd, repn alphaCI 2 4, chr '-', repn dgt 2 6, .bnd],
    catL [.bnd, altStrsCI ["Model", "Part", "Serial"], star wsp,
      .quest (.alt (catL [strCI "No", .quest (chr '.')]) (strCI "Number")), star wsp,
      .quest (chr ':'), star wsp,
      plus (.cls (fun c => c.isAlpha || c.isDigit || c = '-')), .bnd] ]

/-- The `safety_patterns` of Phase1's `extract_entities`. -/
def safety_patterns : List RE :=
  [ wb (altStrsCI ["PPE", "personal protective equipment", "safety glasses",
      "hard hat", "gloves", "respirator"]),
    wb (altStrsCI ["hazard", "danger", "warning", "caution", "risk"]),
    wb (altStrsCI ["OSHA", "safety procedure", "lockout", "tagout", "LOTO"]) ]

/-- The `process_patterns` of Phase1's `extract_entities`. -/
def process_patterns : List RE :=
  [ wb (altStrsCI ["temperature", "pressure", "flow rate", "speed", "RPM", "PSI",
      "°F", "°C"]),
    catL [.bnd, plus dgt, star wsp,
      altStrsCI ["PSI", "RPM", "°F", "°C", "GPM", "CFM", "Hz"], .bnd],
    wb (altStrsCI ["start", "stop", "pause", "resume", "emergency stop", "e-stop"]) ]

/-- The `personnel_patterns` of Phase1's `extract_entities`. -/
def personnel_patterns : List RE :=
  [ wb (altStrsCI ["operator", "technician", "supervisor", "manager", "engineer",
      "maintenance"]),
    catL [.bnd, altStrsCI ["shift", "team", "crew", "department"], star wsp,
      .quest (altStrsCI ["lead", "leader", "supervisor"]), .bnd] ]

/-- The four sequential pattern blocks of Phase1's `extract_entities`, each with
its label and fixed confidence, in source order. -/
def entity_groups : List (String × ℚ × List RE) :=
  [ ("EQUIPMENT", 8/10, equipment_patterns),
    ("SAFETY", 9/10, safety_patterns),
    ("PROCESS", 7/10, process_patterns),
    ("PERSONNEL", 8/10, personnel_patterns) ]

/-- Phase1's `extract_entities`: append one entity per pattern match, with the
block's fixed confidence; no length filter, no deduplication, no overlap
resolution. -/
def extract_entities (text : Str) : List Entity :=
  entity_groups.flatMap (fun g =>
    g.2.2.flatMap (fun pattern =>
      (finditer pattern text).map (fun se =>
        ⟨pySlice text se.1 se.2, g.1, se.1, se.2, g.2.1⟩)))

end Phase1

/-! ## Document structure analyzer (`Phase1` only) -/

/-- One entry of `structure["sections"]`. -/
structure SectionRec where
  title : Str
  line_number : Nat
deriving DecidableEq, Repr

/-- One entry of `structure["lists"]`. -/
structure ListRec where
  content : Str
  line_number : Nat
  type : String
deriving DecidableEq, Repr

/-- One entry of `structure["tables"]`. -/
structure TableRec where
  content : Str
  line_number : Nat
deriving DecidableEq, Repr

/-- The result dict of `analyze_document_structure` (`references` is
initialized empty and never filled). -/
structure DocStructure where
  sections : List SectionRec
  lists : List ListRec
  tables : List TableRec
  references : List Str
deriving DecidableEq, Repr

/-- The `r'^\d+\.?\s+[A-Z]'`, used with `re.match` on the stripped line. -/
def headingRe : RE := catL [plus dgt, .quest (chr '.'), plus wsp, ucase]

/-- The `r'^\s*[-•*]\s+'` (bullet list marker). -/
def bulletRe : RE := catL [star wsp, .cls (fun c => c = '-' || c = '•' || c = '*'), plus wsp]

/-- The `r'^\s*\d+\.?\s+'` (numbered list marker). -/
def numberedRe : RE := catL [star wsp, plus dgt, .quest (chr '.'), plus wsp]

/-- The `r'^\s*[a-zA-Z]\.?\s+'` (lettered list marker). -/
def letteredRe : RE := catL [star wsp, .cls Char.isAlpha, .quest (chr '.'), plus wsp]

/-- The `r'\s{3,}'` (a run of 3 or more whitespace characters). -/
def ws3Re : RE := atLeast wsp 3

/-- Phase1's `analyze_document_structure`: sections are non-empty stripped
lines that are fully upper-case (Python `str.isupper`) or match the numbered
heading pattern; lists are lines matching a marker pattern (first match wins,
the bullet pattern labelled "bullet" and the other two "numbered"); tables
are lines with a tab, a pipe, or more than one run of 3+ whitespace
characters. Line numbers are 1-based. -/
def Phase1.analyze_document_structure (text : Str) : DocStructure :=
  let lines := text.splitOn '\n'
  let sections := lines.enum.filterMap (fun il =>
    let line := pyStrip il.2
    if !line.isEmpty && (pyIsUpper line || (matchAt line headingRe 0).isSome) then
      some ⟨line, il.1 + 1⟩
    else none)
  let lists := lines.enum.filterMap (fun il =>
    if (matchAt il.2 bulletRe 0).isSome then some ⟨pyStrip il.2, il.1 + 1, "bullet"⟩
    else if (matchAt il.2 numberedRe 0).isSome then some ⟨pyStrip il.2, il.1 + 1, "numbered"⟩
    else if (matchAt il.2 letteredRe 0).isSome then some ⟨pyStrip il.2, il.1 + 1, "numbered"⟩
    else none)
  let tables := lines.enum.filterMap (fun il =>
    if il.2.contains '\t' || il.2.contains '|' || 1 < (finditer ws3Re il.2).length then
      some ⟨pyStrip il.2, il.1 + 1⟩
    else none)
  ⟨sections, lists, tables, []⟩

/-! ## Lemmas about the stable sort -/

theorem mem_pyInsert {keep : α → α → Bool} :
    ∀ {l : List α} {e x : α}, x ∈ pyInsert keep l e → x ∈ l ∨ x = e := by
  intro l
  induction l with
  | nil =>
    intro e x h
    simp only [pyInsert, List.mem_singleton] at h
    exact Or.inr h
  | cons a t ih =>
    intro e x h
    by_cases hk : keep a e = true
    · simp only [pyInsert, hk, if_true, List.mem_cons] at h
      rcases h with h | h
      · exact Or.inl (by simp [h])
      · rcases ih h with h' | h'
        · exact Or.inl (List.mem_cons_of_mem _ h')
        · exact Or.inr h'
    · simp only [pyInsert, hk, Bool.false_eq_true, if_false, List.mem_cons] at h
      rcases h with h | h
      · exact Or.inr h
      · exact Or.inl (by simpa using h)

theorem mem_pySortAux {keep : α → α → Bool} :
    ∀ (l acc : List α) (x : α), x ∈ l.foldl (pyInsert keep) acc → x ∈ acc ∨ x ∈ l := by
  intro l
  induction l with
  | nil => intro acc x h; exact Or.inl h
  | cons a t ih =>
    intro acc x h
    rcases ih (pyInsert keep acc a) x h with h' | h'
    · rcases mem_pyInsert h' with h'' | h''
      · exact Or.inl h''
      · exact Or.inr (by simp [h''])
    · exact Or.inr (List.mem_cons_of_mem _ h')

theorem mem_pySort {keep : α → α → Bool} {l : List α} {x : α}
    (h : x ∈ pySort keep l) : x ∈ l := by
  rcases mem_pySortAux l [] x h with h' | h'
  · simp at h'
  · exact h'

theorem pyInsert_pairwise {keep : α → α → Bool}
    (htot : ∀ a b, keep a b = true ∨ keep b a = true)
    (htrans : ∀ a b c, keep a b = true → keep b c = true → keep a c = true)
    {l : List α} (hl : l.Pairwise (fun a b => keep a b = true)) (e : α) :
    (pyInsert keep l e).Pairwise (fun a b => keep a b = true) := by
  induction l with
  | nil => simp [pyInsert]
  | cons a t ih =>
    rcases List.pairwise_cons.mp hl with ⟨ha, ht⟩
    by_cases hk : keep a e = true
    · simp only [pyInsert, hk, if_true]
      refine List.pairwise_cons.mpr ⟨?_, ih ht⟩
      intro x hx
      rcases mem_pyInsert hx with h | h
      · exact ha x h
      · exact h ▸ hk
    · simp only [pyInsert, hk, Bool.false_eq_true, if_false]
      have hea : keep e a = true := (htot a e).resolve_left hk
      refine List.pairwise_cons.mpr ⟨?_, hl⟩
      intro x hx
      rcases List.mem_cons.mp hx with h | h
      · exact h ▸ hea
      · exact htrans e a x hea (ha x h)

theorem pySort_pairwise {keep : α → α → Bool}
    (htot : ∀ a b, keep a b = true ∨ keep b a = true)
    (htrans : ∀ a b c, keep a b = true → keep b c = true → keep a c = true)
    (l : List α) : (pySort keep l).Pairwise (fun a b => keep a b = true) := by
  suffices h : ∀ (l' acc : List α), acc.Pairwise (fun a b => keep a b = true) →
      (l'.foldl (pyInsert keep) acc).Pairwise (fun a b => keep a b = true) by
    exact h l [] (by simp)
  intro l'
  induction l' with
  | nil => intro acc hacc; exact hacc
  | cons a t ih => intro acc hacc; exact ih _ (pyInsert_pairwise htot htrans hacc a)

/-! ## The overlap-resolution invariant -/

theorem scanOv_pairwise :
    ∀ (rest : List Entity) (last : Entity) (accRev : List Entity),
      (∀ x ∈ accRev, x.«end» ≤ last.start) →
      accRev.Pairwise (fun x y => y.«end» ≤ x.start) →
      (∀ c ∈ rest, last.start ≤ c.start) →
      rest.Pairwise (fun a b => a.start ≤ b.start) →
      (scanOv last accRev rest).Pairwise (fun a b => a.«end» ≤ b.start) := by
  intro rest
  induction rest with
  | nil =>
    intro last accRev h1 h2 _ _
    simp only [scanOv]
    rw [show (last :: accRev).reverse = accRev.reverse ++ [last] by simp]
    refine List.pairwise_append.mpr ⟨List.pairwise_reverse.mpr h2, by simp, ?_⟩
    intro x hx y hy
    rcases List.mem_singleton.mp hy with rfl
    exact h1 x (List.mem_reverse.mp hx)
  | cons current rest' ih =>
    intro last accRev h1 h2 h3 h4
    rcases List.pairwise_cons.mp h4 with ⟨hcur, h4'⟩
    have hlc : last.start ≤ current.start := h3 current (by simp)
    simp only [scanOv]
    by_cases hov : current.start < last.«end»
    · rw [if_pos hov]
      by_cases hcf : last.confidence < current.confidence
      · rw [if_pos hcf]
        exact ih current accRev (fun x hx => le_trans (h1 x hx) hlc) h2 hcur h4'
      · rw [if_neg hcf]
        exact ih last accRev h1 h2 (fun c hc => h3 c (List.mem_cons_of_mem _ hc)) h4'
    · rw [if_neg hov]
      have hle : last.«end» ≤ current.start := Nat.le_of_not_lt hov
      refine ih current (last :: accRev) ?_ ?_ hcur h4'
      · intro x hx
        rcases List.mem_cons.mp hx with rfl | hx'
        · exact hle
        · exact le_trans (h1 x hx') hlc
      · exact List.pairwise_cons.mpr ⟨fun y hy => h1 y hy, h2⟩

theorem keepByStart_total : ∀ a b : Entity, keepByStart a b = true ∨ keepByStart b a = true := by
  intro a b
  unfold keepByStart
  rcases Nat.le_total a.start b.start with h | h
  · exact Or.inl (decide_eq_true h)
  · exact Or.inr (decide_eq_true h)

theorem keepByStart_trans : ∀ a b c : Entity,
    keepByStart a b = true → keepByStart b c = true → keepByStart a c = true := by
  intro a b c hab hbc
  exact decide_eq_true (le_trans (of_decide_eq_true hab) (of_decide_eq_true hbc))

theorem filter_overlapping_pairwise (l : List Entity) :
    (filter_overlapping_entities l).Pairwise (fun a b => a.«end» ≤ b.start) := by
  unfold filter_overlapping_entities
  have hp := pySort_pairwise keepByStart_total keepByStart_trans l
  cases h : pySort keepByStart l with
  | nil => simp
  | cons first rest =>
    rw [h] at hp
    have hp' : (first :: rest).Pairwise (fun a b : Entity => a.start ≤ b.start) :=
      hp.imp (fun hab => of_decide_eq_true hab)
    rcases List.pairwise_cons.mp hp' with ⟨hhead, htail⟩
    exact scanOv_pairwise rest first [] (by simp) (by simp) hhead htail

/-- C1 (amended): the PH-1 entity recognizer ends in overlap resolution, so
for every input text its output contains no two entities whose
[start, end) character ranges overlap: for any earlier entity a and later
entity b of the result, a.end <= b.start or b.end <= a.start. (The Phase1
variant of the recognizer appends raw pattern matches without overlap
resolution and violates this; see the counterexample.) -/
theorem C1_ph1_output_non_overlapping (text : Str) :
    (PH1.extract_entities text).Pairwise
      (fun a b => a.«end» ≤ b.start ∨ b.«end» ≤ a.start) :=
  List.Pairwise.imp (fun h => Or.inl h) (filter_overlapping_pairwise _)

/-- C1 counterexample: on the input "ABC-12 PSI" the Phase1 recognizer emits
the entities "ABC-12" over [0,6), "PSI" over [7,10) and "12 PSI" over
[4,10); the ranges [0,6) and [4,10) overlap, so the claim, read over the
Phase1 variant its sources include, is false. -/
theorem C1_counterexample :
    ¬ (Phase1.extract_entities "ABC-12 PSI".data).Pairwise
        (fun a b => a.«end» ≤ b.start ∨ b.«end» ≤ a.start) := by decide

/-- C6: in overlap resolution, two candidates in start order whose spans
overlap are resolved by keeping the earlier-starting one unless the later
one has strictly greater confidence; in particular, on equal confidences
the earlier-starting entity is kept (replacement only on strict
improvement). -/
theorem C6_overlap_tie_break (a b : Entity) (hs : a.start ≤ b.start)
    (hov : b.start < a.«end») :
    filter_overlapping_entities [a, b] =
      [if a.confidence < b.confidence then b else a] := by
  have hsort : pySort keepByStart [a, b] = [a, b] := by
    simp [pySort, pyInsert, keepByStart, decide_eq_true hs]
  by_cases hcf : a.confidence < b.confidence
  · simp [filter_overlapping_entities, hsort, scanOv, if_pos hov, if_pos hcf, hcf]
  · simp [filter_overlapping_entities, hsort, scanOv, if_pos hov, if_neg hcf, hcf]

/-- Two concrete overlapping candidates with equal confidence, in start
order: witness input for C6. -/
def entA : Entity := ⟨"pump".data, "EQUIPMENT", 0, 5, 8/10⟩

/-- See `entA`. -/
def entB : Entity := ⟨"mp 1".data, "EQUIPMENT", 3, 8, 8/10⟩

/-- C6 witness: at the concrete overlapping pair with equal confidences the
resolver keeps the earlier-starting entity. -/
theorem C6_witness :
    filter_overlapping_entities [entA, entB] =
      [if entA.confidence < entB.confidence then entB else entA] :=
  C6_overlap_tie_break entA entB (by decide) (by decide)

/-! ## Deduplication (C9) -/

/-- C9's description of `remove_duplicate_entities`, stated independently of
the loop: keep each entity exactly when no earlier entity bears the same
(lower-cased text, start, end) key — i.e. the first bearer of each key. -/
def keepFirstByKey : List Entity → List Entity
  | [] => []
  | e :: t => e :: keepFirstByKey (t.filter fun x => decide (dedupKey x ≠ dedupKey e))
termination_by l => l.length
decreasing_by
  simp only [List.length_cons]
  exact Nat.lt_succ_of_le (List.length_filter_le _ t)

theorem removeDupAux_eq_keepFirst :
    ∀ (l : List Entity) (seen : List (Str × Nat × Nat)),
      removeDupAux seen l =
        keepFirstByKey (l.filter fun e => !seen.contains (dedupKey e)) := by
  intro l
  induction l with
  | nil => intro seen; simp [removeDupAux, keepFirstByKey]
  | cons e t ih =>
    intro seen
    by_cases hc : seen.contains (dedupKey e) = true
    · rw [List.filter_cons_of_neg (by simpa using hc)]
      simp only [removeDupAux, hc, if_true]
      exact ih seen
    · rw [List.filter_cons_of_pos (by simpa using hc)]
      simp only [removeDupAux, hc, Bool.false_eq_true, if_false, keepFirstByKey]
      congr 1
      rw [ih (dedupKey e :: seen), List.filter_filter]
      apply congrArg
      apply List.filter_congr
      intro x _
      by_cases hxe : dedupKey x = dedupKey e <;>
        by_cases hxs : dedupKey x ∈ seen <;>
          simp [hxe, hxs, List.contains_cons]

theorem removeDupAux_sublist :
    ∀ (l : List Entity) (seen : List (Str × Nat × Nat)),
      (removeDupAux seen l).Sublist l := by
  intro l
  induction l with
  | nil => intro seen; simp [removeDupAux]
  | cons e t ih =>
    intro seen
    by_cases hc : seen.contains (dedupKey e) = true
    · simp only [removeDupAux, hc, if_true]
      exact (ih seen).cons e
    · simp only [removeDupAux, hc, Bool.false_eq_true, if_false]
      exact (ih _).cons₂ e

/-- C9: entity deduplication is an order-preserving subsequence of its input
that keeps, for each distinct (lower-cased text, start, end) triple, exactly
the first candidate bearing it. -/
theorem C9_remove_duplicates_spec (l : List Entity) :
    remove_duplicate_entities l = keepFirstByKey l ∧
    (remove_duplicate_entities l).Sublist l := by
  constructor
  · rw [remove_duplicate_entities, removeDupAux_eq_keepFirst]
    congr 1
    simp
  · exact removeDupAux_sublist l []

/-! ## Empty and null input (C2) -/

/-- Python runtime errors relevant to a null (`None`) text argument. -/
inductive PyErr where
  | attributeError : PyErr
  | typeError : PyErr
deriving DecidableEq, Repr

/-- The `classify_content` over a nullable argument, embedding the dynamic
behavior of the source for Python's `None`: the body's first operation,
`text.lower()`, raises `AttributeError` when `text` is `None` (a `NoneType`
has no attribute `lower`); otherwise the classifier runs normally. -/
def classify_content_opt (text : Option Str) : Except PyErr (List ContentCategory) :=
  match text with
  | none => .error .attributeError
  | some t => .ok (classify_content t)

/-- C2 counterexample: a null text is not answered with an empty result
sequence — the content classifier raises (AttributeError from
`None.lower()`), so "empty or null input ... never raises an error" is
false for null input. -/
theorem C2_counterexample :
    classify_content_opt none = Except.error PyErr.attributeError := rfl

/-- C2 (amended): for the empty input text every component — both entity
recognizers, the relationship inferencer (fed the recognizer's empty output),
the content classifier, both key phrase extractors and the structure
analyzer — returns an empty result sequence and raises no error. -/
theorem C2_empty_input_empty_results :
    PH1.extract_entities [] = [] ∧
    Phase1.extract_entities [] = [] ∧
    extract_relationships [] (PH1.extract_entities []) = [] ∧
    classify_content [] = [] ∧
    PH1.extract_key_phrases [] 10 = [] ∧
    Phase1.extract_key_phrases [] 10 = [] ∧
    Phase1.analyze_document_structure [] = ⟨[], [], [], []⟩ ∧
    classify_content_opt (some []) = Except.ok [] := by
  refine ⟨?_, ?_, ?_, ?_, ?_, ?_, ?_, ?_⟩ <;> rfl

/-! ## The relationship inferencer (C3) -/

/-- All ordered pairs (i, j) with i before j, in loop order. -/
def ordPairs : List α → List (α × α)
  | [] => []
  | e :: t => t.map (fun x => (e, x)) ++ ordPairs t

/-- C3's description of the relationship inferencer, stated from the claim:
over every ordered pair with the first element earlier in the entity
sequence, emit exactly when the label pair is in the symmetric lookup table
(both orders) and the starts are within 50 characters; the emitted
relationship carries confidence exactly 0.7 and the context window
`text[max(0, min(start) - 25) : min(len(text), max(end) + 25)]`. -/
def relationshipsSpec (text : Str) (entities : List Entity) : List Relationship :=
  (ordPairs entities).filterMap fun p =>
    match determine_relationship_type p.1.label p.2.label with
    | some rt =>
        if Nat.dist p.1.start p.2.start < 50 then
          some ⟨p.1.text, p.2.text, rt, 7/10,
            pySlice text (max 0 (min p.1.start p.2.start - 25))
              (min text.length (max p.1.«end» p.2.«end» + 25))⟩
        else none
    | none => none

theorem mkRelationship_eq (text : Str) (e1 e2 : Entity) :
    mkRelationship text e1 e2 =
      match determine_relationship_type e1.label e2.label with
      | some rt =>
          if Nat.dist e1.start e2.start < 50 then
            some ⟨e1.text, e2.text, rt, 7/10,
              pySlice text (max 0 (min e1.start e2.start - 25))
                (min text.length (max e1.«end» e2.«end» + 25))⟩
          else none
      | none => none := by
  unfold mkRelationship relContext
  cases hdt : determine_relationship_type e1.label e2.label with
  | none => simp
  | some rt =>
    by_cases hd : Nat.dist e1.start e2.start < 50 <;> simp [hd, Nat.zero_max]

/-- C3: the relationship inferencer emits exactly as the claim describes —
for each ordered pair (i, j) with i before j, a relationship exactly when
the starts are within 50 characters and the label pair is in the symmetric
rules table (checked in both orders), with confidence exactly 0.7 and the
clamped ±25-character context window. -/
theorem C3_relationships_exact (text : Str) (entities : List Entity) :
    extract_relationships text entities = relationshipsSpec text entities := by
  induction entities with
  | nil => rfl
  | cons e1 rest ih =>
    simp only [extract_relationships, relationshipsSpec, ordPairs,
      List.filterMap_append, List.filterMap_map]
    refine congrArg₂ (· ++ ·) ?_ ih
    apply List.filterMap_congr
    intro e2 _
    exact mkRelationship_eq text e1 e2


/-! ## The scoring function (C4) -/

/-- The TECHNOLOGY / ORGANIZATION / DATE specialization tests of
`calculate_entity_confidence`, shared by the spec-side formulations below. -/
def specializationTest (label : String) (text : Str) : Bool :=
  if label = "TECHNOLOGY" then
    (["processing", "learning", "intelligence", "vision"].map String.data).any
      (fun kw => containsSub kw (lowerStr text))
  else if label = "ORGANIZATION" then
    (["inc", "corp", "ltd", "university", "institute"].map String.data).any
      (fun kw => containsSub kw (lowerStr text))
  else if label = "DATE" then (matchAt text dateYearRe 0).isSome
  else false

/-- The scored-catalog confidence exactly as claim C4 states it: base 0.7,
`+0.1` for length > 10, `-0.2` for length < 4, `+0.1` for an upper-case
first character, `+0.15` when the label's specialization test matches (for
every label with such a test, DATE included), `-0.4` for a stop word, the
sum clamped to [0, 1]. Stated from the claim's words, to compare with the
source's `calculate_entity_confidence`. -/
def claimedEntityConfidence (text : Str) (label : String) : ℚ :=
  max 0 (min 1 ((7 : ℚ)/10
    + (if 10 < text.length then 1/10 else 0)
    + (if text.length < 4 then -(2/10) else 0)
    + (if (match text with | c :: _ => c.isUpper | [] => false) then (1 : ℚ)/10 else 0)
    + (if specializationTest label text then 15/100 else 0)
    + (if common_words.contains (lowerStr text) then -(4/10) else 0)))

/-- C4 as amended: identical to the claim except that a matching DATE
specialization test adds only `+0.1`; the TECHNOLOGY and ORGANIZATION tests
add `+0.15`. -/
def amendedEntityConfidence (text : Str) (label : String) : ℚ :=
  max 0 (min 1 ((7 : ℚ)/10
    + (if 10 < text.length then 1/10 else 0)
    + (if text.length < 4 then -(2/10) else 0)
    + (if (match text with | c :: _ => c.isUpper | [] => false) then (1 : ℚ)/10 else 0)
    + (if label = "TECHNOLOGY" && specializationTest label text then 15/100
       else if label = "ORGANIZATION" && specializationTest label text then 15/100
       else if label = "DATE" && specializationTest label text then 1/10 else 0)
    + (if common_words.contains (lowerStr text) then -(4/10) else 0)))

/-- C4 counterexample: for the DATE candidate "2024" the source computes
0.7 + 0.1 = 0.8, while the claim's formula (+0.15 for every label with a
specialization test, DATE included) gives 0.85. -/
theorem C4_counterexample :
    calculate_entity_confidence "2024".data "DATE" [] 0 4 = 4/5 ∧
    claimedEntityConfidence "2024".data "DATE" = 17/20 ∧
    ((4 : ℚ)/5) ≠ 17/20 := by
  refine ⟨?_, ?_, by norm_num⟩
  · unfold calculate_entity_confidence
    norm_num [show (matchAt "2024".data dateYearRe 0).isSome = true from rfl,
      show common_words.contains (lowerStr "2024".data) = false from rfl,
      show ¬ (lowerStr "2024".data ∈ common_words) by decide,
      show ¬ ("DATE" = "TECHNOLOGY") by decide,
      show ¬ ("DATE" = "ORGANIZATION") by decide,
      show ("2024".data).length = 4 from rfl,
      show ('2').isUpper = false from rfl]
  · unfold claimedEntityConfidence specializationTest
    norm_num [show (matchAt "2024".data dateYearRe 0).isSome = true from rfl,
      show common_words.contains (lowerStr "2024".data) = false from rfl,
      show ¬ (lowerStr "2024".data ∈ common_words) by decide,
      show ¬ ("DATE" = "TECHNOLOGY") by decide,
      show ¬ ("DATE" = "ORGANIZATION") by decide,
      show ("2024".data).length = 4 from rfl,
      show ('2').isUpper = false from rfl]

set_option maxHeartbeats 1000000 in
/-- C4 (amended): for every non-empty candidate text and every label, the
source confidence equals base 0.7 plus +0.1 if the match length exceeds 10,
-0.2 if it is under 4, +0.1 if the first character is upper-case, +0.15 for
a matching TECHNOLOGY or ORGANIZATION specialization test but only +0.1 for
a matching DATE test, and -0.4 for a stop word, the sum clamped to [0, 1]. -/
theorem C4_confidence_formula (text : Str) (label : String) (full_text : Str)
    (start fin : Nat) (h : text ≠ []) :
    calculate_entity_confidence text label full_text start fin =
      amendedEntityConfidence text label := by
  cases text with
  | nil => exact absurd rfl h
  | cons c t =>
    unfold calculate_entity_confidence amendedEntityConfidence specializationTest
    by_cases hT : label = "TECHNOLOGY" <;> by_cases hO : label = "ORGANIZATION" <;>
      by_cases hD : label = "DATE" <;>
      first
        | (rw [hT] at hO; exact absurd hO (by decide))
        | (rw [hT] at hD; exact absurd hD (by decide))
        | (rw [hO] at hD; exact absurd hD (by decide))
        | (simp only [hT, hO, hD, Bool.true_and, Bool.false_and, if_true, if_false,
             Bool.false_eq_true, eq_self_iff_true,
             show decide True = true from rfl,
             show decide False = false from rfl,
             show ¬("TECHNOLOGY" = "ORGANIZATION") by decide,
             show ¬("TECHNOLOGY" = "DATE") by decide,
             show ¬("ORGANIZATION" = "TECHNOLOGY") by decide,
             show ¬("ORGANIZATION" = "DATE") by decide,
             show ¬("DATE" = "TECHNOLOGY") by decide,
             show ¬("DATE" = "ORGANIZATION") by decide]
           split_ifs <;> first | rfl | (exfalso; omega) | (congr 1; congr 1; ring))

/-- C4 witness: the amended formula, instantiated at the concrete DATE
candidate "2024". -/
theorem C4_witness :
    calculate_entity_confidence "2024".data "DATE" [] 0 4 =
      amendedEntityConfidence "2024".data "DATE" :=
  C4_confidence_formula "2024".data "DATE" [] 0 4 (by decide)

/-! ## The content classifier (C5) -/

theorem keepByConfDesc_total : ∀ a b : ContentCategory,
    keepByConfDesc a b = true ∨ keepByConfDesc b a = true := by
  intro a b
  unfold keepByConfDesc
  rcases le_total a.confidence b.confidence with h | h
  · exact Or.inr (decide_eq_true h)
  · exact Or.inl (decide_eq_true h)

theorem keepByConfDesc_trans : ∀ a b c : ContentCategory,
    keepByConfDesc a b = true → keepByConfDesc b c = true → keepByConfDesc a c = true := by
  intro a b c hab hbc
  exact decide_eq_true (le_trans (of_decide_eq_true hbc) (of_decide_eq_true hab))

/-- C5: every category the classifier emits carries confidence exactly
`min(0.95, matches / |keywords| * 2)` for its catalog keyword set, strictly
above 0.3 and at most 0.95, and the output is sorted by non-increasing
confidence. -/
theorem C5_classifier_confidences_sorted (text : Str) :
    (∀ c ∈ classify_content text,
        ∃ kws, (c.category, kws) ∈ category_keywords ∧
          c.confidence =
            min (95/100)
              (((kws.filter fun kw => containsSub (lowerStr kw) (lowerStr text)).length : ℚ)
                / (kws.length : ℚ) * 2) ∧
          3/10 < c.confidence ∧ c.confidence ≤ 95/100) ∧
    (classify_content text).Pairwise (fun a b => b.confidence ≤ a.confidence) := by
  constructor
  · intro c hc
    unfold classify_content at hc
    have hc' := mem_pySort hc
    rcases List.mem_filterMap.mp hc' with ⟨ck, hck, hf⟩
    simp only at hf
    split_ifs at hf with h1 h2
    rcases Option.some.inj hf with rfl
    refine ⟨ck.2, ?_, ?_, h2, min_le_left _ _⟩
    · simpa using hck
    · rfl
  · exact (pySort_pairwise keepByConfDesc_total keepByConfDesc_trans _).imp
      (fun hab => of_decide_eq_true hab)

/-! ## The document structure analyzer (C8) -/

/-- C8's header criterion, stated from the claim: the trimmed line is
non-empty and is either fully upper-case (Python `str.isupper`) or matches
the leading-number-plus-capital-letter heading pattern. -/
def sectionHeaderSpec (trimmed : Str) : Prop :=
  trimmed ≠ [] ∧ (pyIsUpper trimmed = true ∨ (matchAt trimmed headingRe 0).isSome = true)

/-- C8: the structure analyzer records a section entry exactly for the lines
whose trimmed content satisfies the header criterion, with the trimmed line
as title and the 1-based line number of the detection. -/
theorem C8_section_headers_exact (text : Str) (t : Str) (n : Nat) :
    (⟨t, n⟩ : SectionRec) ∈ (Phase1.analyze_document_structure text).sections ↔
      ∃ i line, (text.splitOn '\n')[i]? = some line ∧ n = i + 1 ∧ t = pyStrip line ∧
        sectionHeaderSpec (pyStrip line) := by
  show (⟨t, n⟩ : SectionRec) ∈ ((text.splitOn '\n').enum.filterMap fun il =>
      let line := pyStrip il.2
      if !line.isEmpty && (pyIsUpper line || (matchAt line headingRe 0).isSome) then
        some ⟨line, il.1 + 1⟩
      else none) ↔ _
  rw [List.mem_filterMap]
  constructor
  · rintro ⟨⟨i, line⟩, hmem, hf⟩
    simp only at hf
    split_ifs at hf with hcond
    rcases Option.some.inj hf with h
    have ht : t = pyStrip line := (congrArg SectionRec.title h).symm
    have hn : n = i + 1 := (congrArg SectionRec.line_number h).symm
    refine ⟨i, line, List.mk_mem_enum_iff_getElem?.mp hmem, hn, ht, ?_⟩
    rw [Bool.and_eq_true, Bool.or_eq_true] at hcond
    rcases hcond with ⟨he, hor⟩
    refine ⟨?_, hor⟩
    intro hnil
    rw [hnil] at he
    simp at he
  · rintro ⟨i, line, hget, hn, ht, hne, hor⟩
    refine ⟨(i, line), List.mk_mem_enum_iff_getElem?.mpr hget, ?_⟩
    simp only
    rw [if_pos]
    · rw [ht, hn]
    · rw [Bool.and_eq_true, Bool.or_eq_true]
      exact ⟨by simp [hne], hor⟩

/-- C8 witness: on the two-line text "INTRO\nhello" exactly the first line is
recorded, as the header "INTRO" with line number 1. -/
theorem C8_witness :
    (⟨"INTRO".data, 1⟩ : SectionRec) ∈
      (Phase1.analyze_document_structure ("INTRO\nhello".data)).sections :=
  (C8_section_headers_exact ("INTRO\nhello".data) "INTRO".data 1).mpr
    ⟨0, "INTRO".data, by decide, rfl, by decide, by decide, Or.inl (by decide)⟩

/-! ## The regex matcher: destructors and monotonicity (for C7, C10) -/

theorem mat_zero_none {text : Str} {r : RE} {p e : Nat} {k : Nat → Option Nat}
    (h : mat text 0 r p k = some e) : False := by
  simp [mat] at h

theorem mat_cat_some {text : Str} {f : Nat} {a b : RE} {p e : Nat} {k : Nat → Option Nat}
    (h : mat text f (.cat a b) p k = some e) :
    ∃ f', f = f' + 1 ∧ mat text f' a p (fun q => mat text f' b q k) = some e := by
  cases f with
  | zero => exact absurd h (by simp [mat])
  | succ f' => exact ⟨f', rfl, h⟩

theorem mat_bnd_some {text : Str} {f : Nat} {p e : Nat} {k : Nat → Option Nat}
    (h : mat text f .bnd p k = some e) :
    wordBoundary text p = true ∧ k p = some e := by
  cases f with
  | zero => exact absurd h (by simp [mat])
  | succ f' =>
    by_cases hb : wordBoundary text p = true
    · refine ⟨hb, ?_⟩
      rw [show mat text (f' + 1) .bnd p k = if wordBoundary text p then k p else none from rfl,
        if_pos hb] at h
      exact h
    · rw [show mat text (f' + 1) .bnd p k = if wordBoundary text p then k p else none from rfl,
        if_neg hb] at h
      exact absurd h (by simp)

theorem mat_cls_some {text : Str} {f : Nat} {cl : Char → Bool} {p e : Nat}
    {k : Nat → Option Nat} (h : mat text f (.cls cl) p k = some e) :
    ∃ c, text[p]? = some c ∧ cl c = true ∧ k (p + 1) = some e := by
  cases f with
  | zero => exact absurd h (by simp [mat])
  | succ f' =>
    rw [show mat text (f' + 1) (.cls cl) p k =
        (match text[p]? with
         | some c => if cl c then k (p + 1) else none
         | none => none) from rfl] at h
    cases hx : text[p]? with
    | none => rw [hx] at h; exact absurd h (by simp)
    | some c =>
      rw [hx] at h
      have h' : (if cl c = true then k (p + 1) else none) = some e := h
      by_cases hc : cl c = true
      · rw [if_pos hc] at h'
        exact ⟨c, rfl, hc, h'⟩
      · rw [if_neg hc] at h'
        exact absurd h' (by simp)

theorem mat_alt_some {text : Str} {f : Nat} {a b : RE} {p e : Nat} {k : Nat → Option Nat}
    (h : mat text f (.alt a b) p k = some e) :
    ∃ f', f = f' + 1 ∧
      (mat text f' a p k = some e ∨ mat text f' b p k = some e) := by
  cases f with
  | zero => exact absurd h (by simp [mat])
  | succ f' =>
    refine ⟨f', rfl, ?_⟩
    rw [show mat text (f' + 1) (.alt a b) p k =
        (match mat text f' a p k with
         | some e => some e
         | none => mat text f' b p k) from rfl] at h
    cases hm : mat text f' a p k with
    | some e' => rw [hm] at h; exact Or.inl h
    | none => rw [hm] at h; exact Or.inr h

theorem mat_quest_some {text : Str} {f : Nat} {a : RE} {p e : Nat} {k : Nat → Option Nat}
    (h : mat text f (.quest a) p k = some e) :
    ∃ f', f = f' + 1 ∧ (mat text f' a p k = some e ∨ k p = some e) := by
  cases f with
  | zero => exact absurd h (by simp [mat])
  | succ f' =>
    refine ⟨f', rfl, ?_⟩
    rw [show mat text (f' + 1) (.quest a) p k =
        (match mat text f' a p k with
         | some e => some e
         | none => k p) from rfl] at h
    cases hm : mat text f' a p k with
    | some e' => rw [hm] at h; exact Or.inl h
    | none => rw [hm] at h; exact Or.inr h

theorem mat_repS_some {text : Str} {f : Nat} {a : RE} {l : Nat} {hi : Option Nat}
    {p e : Nat} {k : Nat → Option Nat}
    (h : mat text f (.rep a (l + 1) hi) p k = some e) :
    ∃ f', f = f' + 1 ∧
      mat text f' a p (fun q => mat text f' (.rep a l (hi.map (· - 1))) q k) = some e := by
  cases f with
  | zero => exact absurd h (by simp [mat])
  | succ f' => exact ⟨f', rfl, h⟩

theorem mat_rep0_some {text : Str} {f : Nat} {a : RE} {hi : Option Nat}
    {p e : Nat} {k : Nat → Option Nat}
    (h : mat text f (.rep a 0 hi) p k = some e) :
    ∃ f', f = f' + 1 ∧
      (k p = some e ∨
        mat text f' a p
          (fun q => if p < q then mat text f' (.rep a 0 (hi.map (· - 1))) q k else none) =
          some e) := by
  cases f with
  | zero => exact absurd h (by simp [mat])
  | succ f' =>
    refine ⟨f', rfl, ?_⟩
    rw [show mat text (f' + 1) (.rep a 0 hi) p k =
        (if hi = some 0 then k p
         else
           match mat text f' a p
               (fun q => if p < q then mat text f' (.rep a 0 (hi.map (· - 1))) q k
                         else none) with
           | some e => some e
           | none => k p) from rfl] at h
    split_ifs at h with h0
    · exact Or.inl h
    · cases hm : mat text f' a p
          (fun q => if p < q then mat text f' (.rep a 0 (hi.map (· - 1))) q k else none) with
      | some e' => rw [hm] at h; exact Or.inr h
      | none => rw [hm] at h; exact Or.inl h

theorem mat_le {text : Str} :
    ∀ (f : Nat) (r : RE) (p : Nat) (k : Nat → Option Nat) (e : Nat),
      mat text f r p k = some e → ∃ q, p ≤ q ∧ k q = some e := by
  intro f
  induction f with
  | zero => intro r p k e h; exact absurd h (by simp [mat])
  | succ f ih =>
    intro r p k e h
    cases r with
    | eps => exact ⟨p, le_refl p, h⟩
    | bnd => exact ⟨p, le_refl p, (mat_bnd_some h).2⟩
    | cls cl =>
      rcases mat_cls_some h with ⟨c, _, _, hk⟩
      exact ⟨p + 1, Nat.le_succ p, hk⟩
    | cat a b =>
      rcases mat_cat_some h with ⟨f', hf, h'⟩
      rcases Nat.succ.inj hf with rfl
      rcases ih a p _ e h' with ⟨q, hpq, hq⟩
      rcases ih b q k e hq with ⟨q', hqq', hk⟩
      exact ⟨q', le_trans hpq hqq', hk⟩
    | alt a b =>
      rcases mat_alt_some h with ⟨f', hf, h'⟩
      rcases Nat.succ.inj hf with rfl
      rcases h' with h' | h'
      · exact ih a p k e h'
      · exact ih b p k e h'
    | quest a =>
      rcases mat_quest_some h with ⟨f', hf, h'⟩
      rcases Nat.succ.inj hf with rfl
      rcases h' with h' | h'
      · exact ih a p k e h'
      · exact ⟨p, le_refl p, h'⟩
    | rep a lo hi =>
      cases lo with
      | succ l =>
        rcases mat_repS_some h with ⟨f', hf, h'⟩
        rcases Nat.succ.inj hf with rfl
        rcases ih a p _ e h' with ⟨q, hpq, hq⟩
        rcases ih _ q k e hq with ⟨q', hqq', hk⟩
        exact ⟨q', le_trans hpq hqq', hk⟩
      | zero =>
        rcases mat_rep0_some h with ⟨f', hf, h'⟩
        rcases Nat.succ.inj hf with rfl
        rcases h' with h' | h'
        · exact ⟨p, le_refl p, h'⟩
        · rcases ih a p _ e h' with ⟨q, hpq, hq⟩
          by_cases hlt : p < q
          · rw [if_pos hlt] at hq
            rcases ih _ q k e hq with ⟨q', hqq', hk⟩
            exact ⟨q', le_trans hpq hqq', hk⟩
          · rw [if_neg hlt] at hq
            exact absurd hq (by simp)

/-- The leftmost mandatory atom of `r` is a word character: whenever `r`
matches at `p`, position `p` holds a word character and the continuation
fires at or after `p + 1`. -/
def HeadP (r : RE) : Prop :=
  ∀ (text : Str) (f p e : Nat) (k : Nat → Option Nat),
    mat text f r p k = some e →
    ∃ c, text[p]? = some c ∧ wordChar c = true ∧ ∃ q, p + 1 ≤ q ∧ k q = some e

theorem headP_cls {cl : Char → Bool} (hcl : ∀ c, cl c = true → wordChar c = true) :
    HeadP (.cls cl) := by
  intro text f p e k h
  rcases mat_cls_some h with ⟨c, hx, hc, hk⟩
  exact ⟨c, hx, hcl c hc, p + 1, le_refl _, hk⟩

theorem headP_cat_left {a b : RE} (ha : HeadP a) : HeadP (.cat a b) := by
  intro text f p e k h
  rcases mat_cat_some h with ⟨f', hf, h'⟩
  rcases ha text f' p e _ h' with ⟨c, hx, hw, q, hpq, hq⟩
  rcases mat_le f' b q k e hq with ⟨q', hqq', hk⟩
  exact ⟨c, hx, hw, q', le_trans hpq hqq', hk⟩

theorem headP_bnd_cat {r : RE} (hr : HeadP r) : HeadP (.cat .bnd r) := by
  intro text f p e k h
  rcases mat_cat_some h with ⟨f', hf, h'⟩
  rcases mat_bnd_some h' with ⟨_, h''⟩
  exact hr text f' p e k h''

theorem headP_alt {a b : RE} (ha : HeadP a) (hb : HeadP b) : HeadP (.alt a b) := by
  intro text f p e k h
  rcases mat_alt_some h with ⟨f', hf, h'⟩
  rcases h' with h' | h'
  · exact ha text f' p e k h'
  · exact hb text f' p e k h'

theorem headP_repS {a : RE} {l : Nat} {hi : Option Nat} (ha : HeadP a) :
    HeadP (.rep a (l + 1) hi) := by
  intro text f p e k h
  rcases mat_repS_some h with ⟨f', hf, h'⟩
  rcases ha text f' p e _ h' with ⟨c, hx, hw, q, hpq, hq⟩
  rcases mat_le f' _ q k e hq with ⟨q', hqq', hk⟩
  exact ⟨c, hx, hw, q', le_trans hpq hqq', hk⟩

theorem headP_chr {c0 : Char} (hw : wordChar c0 = true) : HeadP (chr c0) := by
  apply headP_cls
  intro c hc
  have : c = c0 := of_decide_eq_true hc
  exact this ▸ hw

theorem headP_strRE {s : String} {c0 : Char} {rest : List Char}
    (hs : s.data = c0 :: rest) (hw : wordChar c0 = true) : HeadP (strRE s) := by
  unfold strRE
  rw [hs]
  exact headP_cat_left (headP_chr hw)

theorem headP_altL {rs : List RE} (h : ∀ r ∈ rs, HeadP r) : HeadP (altL rs) := by
  induction rs with
  | nil => exact headP_cls (fun c hc => absurd hc (by simp))
  | cons r rs ih =>
    cases rs with
    | nil => exact h r (by simp)
    | cons r2 rs2 =>
      exact headP_alt (h r (by simp))
        (ih (fun r' hr' => h r' (List.mem_cons_of_mem _ hr')))

theorem ucase_word : ∀ c : Char, c.isUpper = true → wordChar c = true := by
  intro c h
  simp [wordChar, Char.isAlpha, h]

theorem dgt_word : ∀ c : Char, c.isDigit = true → wordChar c = true := by
  intro c h
  simp [wordChar, h]

theorem headP_kpCapitalized : HeadP kpCapitalized :=
  headP_bnd_cat (headP_cat_left (headP_repS (headP_cat_left (headP_cls ucase_word))))

theorem headP_kpMeasurement : HeadP kpMeasurement :=
  headP_bnd_cat (headP_cat_left (headP_repS (headP_cls dgt_word)))

theorem headP_kpCode : HeadP kpCode :=
  headP_bnd_cat (headP_cat_left (headP_repS (headP_cls ucase_word)))

theorem headP_kpProcedural : HeadP kpProcedural := by
  apply headP_bnd_cat
  apply headP_cat_left
  apply headP_altL
  intro r hr
  simp only [altStrs, List.map, List.mem_cons, List.not_mem_nil, or_false] at hr
  rcases hr with rfl | rfl | rfl | rfl | rfl <;>
    exact headP_strRE rfl (by decide)

theorem finditAux_sound {text : Str} {r : RE} :
    ∀ (f p0 : Nat) (pe : Nat × Nat),
      pe ∈ finditAux text r f p0 → matchAt text r pe.1 = some pe.2 := by
  intro f
  induction f with
  | zero => intro p0 pe h; simp [finditAux] at h
  | succ f ih =>
    intro p0 pe h
    rw [show finditAux text r (f + 1) p0 =
        (if text.length < p0 then []
         else
           match matchAt text r p0 with
           | some e => (p0, e) :: finditAux text r f (max e (p0 + 1))
           | none => finditAux text r f (p0 + 1)) from rfl] at h
    split_ifs at h with hl
    · simp at h
    · cases hm : matchAt text r p0 with
      | some e =>
        rw [hm] at h
        rcases List.mem_cons.mp h with rfl | h'
        · exact hm
        · exact ih _ _ h'
      | none =>
        rw [hm] at h
        exact ih _ _ h

theorem getElem?_some_lt {l : Str} {p : Nat} {c : Char} (h : l[p]? = some c) :
    p < l.length := by
  by_contra hge
  rw [List.getElem?_eq_none (Nat.le_of_not_lt hge)] at h
  exact absurd h (by simp)

theorem pySlice_cons {text : Str} {p e : Nat} {c : Char}
    (hpe : p + 1 ≤ e) (hc : text[p]? = some c) :
    ∃ m', pySlice text p e = c :: m' := by
  have hlt : p < text.length := getElem?_some_lt hc
  have hlt' : p < (text.take e).length := by
    rw [List.length_take]
    exact lt_min hpe hlt
  refine ⟨(text.take e).drop (p + 1), ?_⟩
  rw [pySlice, List.drop_eq_getElem_cons hlt']
  congr 1
  have h1 := List.getElem?_take (l := text) (n := e) (m := p)
  rw [if_pos (show p < e from hpe), hc, List.getElem?_eq_getElem hlt'] at h1
  exact Option.some.inj h1

theorem findall_head {r : RE} {text m : Str} (hH : HeadP r) (h : m ∈ findall r text) :
    ∃ c m', m = c :: m' ∧ wordChar c = true := by
  rcases List.mem_map.mp h with ⟨⟨p, e⟩, hmem, rfl⟩
  have hm := finditAux_sound _ _ _ hmem
  rcases hH text _ p e some hm with ⟨c, hc, hw, q, hq, hsome⟩
  rcases Option.some.inj hsome with rfl
  rcases pySlice_cons hq hc with ⟨m', hm'⟩
  exact ⟨c, m', hm', hw⟩

theorem wordChar_not_space {c : Char} (h : wordChar c = true) : pySpace c = false := by
  cases hs : pySpace c
  · rfl
  · exfalso
    have hs' : ((((c = ' ' ∨ c = '\t') ∨ c = '\n') ∨ c = '\x0d') ∨ c = '\x0b') ∨ c = '\x0c' := by
      simpa [pySpace] using hs
    rcases hs' with ((((rfl | rfl) | rfl) | rfl) | rfl) | rfl <;> exact absurd h (by decide)

theorem splitWsAux_ne_nil : ∀ (l acc : Str), acc ≠ [] → splitWsAux l acc ≠ [] := by
  intro l
  induction l with
  | nil =>
    intro acc hacc
    simp only [splitWsAux]
    rw [if_neg (by simpa using hacc)]
    simp
  | cons c t ih =>
    intro acc hacc
    simp only [splitWsAux]
    split_ifs with h1 h2
    · exact absurd (List.isEmpty_iff.mp h2) hacc
    · simp
    · exact ih (c :: acc) (by simp)

theorem splitWs_pos {c : Char} {m' : Str} (hc : pySpace c = false) :
    1 ≤ (splitWs (c :: m')).length := by
  have hne : splitWsAux (c :: m') [] ≠ [] := by
    simp only [splitWsAux]
    rw [if_neg (by simp [hc])]
    exact splitWsAux_ne_nil m' [c] (by simp)
  rw [splitWs]
  exact List.length_pos.mpr hne

theorem phraseScore_ge {m : Str} (h : ∃ c m', m = c :: m' ∧ wordChar c = true) :
    4/5 ≤ phraseScore m := by
  rcases h with ⟨c, m', rfl, hw⟩
  unfold phraseScore
  have h1 : 1 ≤ (splitWs (c :: m')).length := splitWs_pos (wordChar_not_space hw)
  have h1q : (1 : ℚ) ≤ ((splitWs (c :: m')).length : ℚ) := by exact_mod_cast h1
  have hb : (1 : ℚ)/2 ≤ (if ((c :: m').headD 'a').isUpper then (1 : ℚ) else 1/2) := by
    split_ifs <;> norm_num
  have hm : (3 : ℚ)/10 ≤ ((splitWs (c :: m')).length : ℚ) * (3/10) := by
    nlinarith
  linarith

theorem mem_kpDedupAux :
    ∀ (l seen : List (Str × ℚ)) (x : Str × ℚ), x ∈ kpDedupAux seen l → x ∈ l := by
  intro l
  induction l with
  | nil => intro seen x h; simp [kpDedupAux] at h
  | cons a t ih =>
    intro seen x h
    simp only [kpDedupAux] at h
    split_ifs at h with hc
    · exact List.mem_cons_of_mem _ (ih seen x h)
    · rcases List.mem_cons.mp h with rfl | h'
      · simp
      · exact List.mem_cons_of_mem _ (ih _ x h')

theorem kp_core_mem {patterns : List RE} {text : Str} {n : Nat} {pr : Str × ℚ}
    (h : pr ∈ extract_key_phrases_core patterns text n) :
    ∃ pat ∈ patterns, ∃ m ∈ findall pat text, pr = (m, phraseScore m) := by
  unfold extract_key_phrases_core at h
  have h1 := List.mem_of_mem_take h
  have h2 := mem_pySort h1
  have h3 := mem_kpDedupAux _ _ _ h2
  rcases List.mem_flatMap.mp h3 with ⟨pat, hpat, hm⟩
  rcases List.mem_map.mp hm with ⟨m, hmem, rfl⟩
  exact ⟨pat, hpat, m, hmem, rfl⟩

theorem kp_snd_eq_score {patterns : List RE} {text : Str} {n : Nat} {pr : Str × ℚ}
    (h : pr ∈ extract_key_phrases_core patterns text n) : pr.2 = phraseScore pr.1 := by
  rcases kp_core_mem h with ⟨pat, _, m, _, rfl⟩
  rfl

/-- C7 counterexample (the claim's negation): there is no input text on which
a key phrase extractor output holds two entries with identical phrase text
and different scores — in either variant — because every emitted pair's
score is a function of its phrase text alone. -/
theorem C7_counterexample :
    (¬ ∃ (text : Str) (n : Nat) (p : Str) (s1 s2 : ℚ),
        (p, s1) ∈ PH1.extract_key_phrases text n ∧
        (p, s2) ∈ PH1.extract_key_phrases text n ∧ s1 ≠ s2) ∧
    (¬ ∃ (text : Str) (n : Nat) (p : Str) (s1 s2 : ℚ),
        (p, s1) ∈ Phase1.extract_key_phrases text n ∧
        (p, s2) ∈ Phase1.extract_key_phrases text n ∧ s1 ≠ s2) := by
  constructor <;>
  · rintro ⟨text, n, p, s1, s2, h1, h2, hne⟩
    exact hne ((kp_snd_eq_score h1).trans (kp_snd_eq_score h2).symm)

/-- C7 (amended): deduplication keys on the full (phrase, score) pair, but
every pair the extractor emits carries the score computed from its phrase
text alone, so identical phrase texts always carry identical scores and the
claimed two-surviving-duplicates situation cannot arise (for any pattern
list, hence for both variants). -/
theorem C7_amended (patterns : List RE) (text : Str) (n : Nat) (pr : Str × ℚ)
    (h : pr ∈ extract_key_phrases_core patterns text n) : pr.2 = phraseScore pr.1 :=
  kp_snd_eq_score h

/-- The concrete extractor run backing the C7 and C10 witnesses. -/
theorem kp_ab1 :
    PH1.extract_key_phrases "AB-1".data 10 = [("AB-1".data, phraseScore "AB-1".data)] := rfl

/-- C7 witness: the amended statement at the concrete input "AB-1". -/
theorem C7_witness :
    (("AB-1".data, phraseScore "AB-1".data) : Str × ℚ).2 =
      phraseScore (("AB-1".data, phraseScore "AB-1".data) : Str × ℚ).1 :=
  C7_amended PH1.phrase_patterns "AB-1".data 10 ("AB-1".data, phraseScore "AB-1".data)
    (by rw [show extract_key_phrases_core PH1.phrase_patterns "AB-1".data 10 =
          [("AB-1".data, phraseScore "AB-1".data)] from kp_ab1]
        simp)

/-- C10: every (phrase, score) pair emitted by the key phrase extractor (in
either variant) has score at least 0.8: each pattern match starts with a
word character, so it is non-empty with word count at least 1, contributing
at least 1 * 0.3, and the first-character bonus is at least 0.5. -/
theorem C10_key_phrase_score_ge (patterns : List RE)
    (hv : patterns = PH1.phrase_patterns ∨ patterns = Phase1.phrase_patterns)
    (text : Str) (n : Nat) (pr : Str × ℚ)
    (h : pr ∈ extract_key_phrases_core patterns text n) : 4/5 ≤ pr.2 := by
  rcases kp_core_mem h with ⟨pat, hpat, m, hm, rfl⟩
  have hH : HeadP pat := by
    rcases hv with rfl | rfl
    · rcases (by simpa [PH1.phrase_patterns] using hpat :
          pat = kpCapitalized ∨ pat = kpMeasurement ∨ pat = kpCode) with rfl | rfl | rfl
      · exact headP_kpCapitalized
      · exact headP_kpMeasurement
      · exact headP_kpCode
    · rcases (by simpa [Phase1.phrase_patterns] using hpat :
          pat = kpCapitalized ∨ pat = kpMeasurement ∨ pat = kpCode ∨ pat = kpProcedural) with
        rfl | rfl | rfl | rfl
      · exact headP_kpCapitalized
      · exact headP_kpMeasurement
      · exact headP_kpCode
      · exact headP_kpProcedural
  exact phraseScore_ge (findall_head hH hm)

/-- C10 witness: the score bound at the concrete input "AB-1". -/
theorem C10_witness :
    (4 : ℚ)/5 ≤ (("AB-1".data, phraseScore "AB-1".data) : Str × ℚ).2 :=
  C10_key_phrase_score_ge PH1.phrase_patterns (Or.inl rfl) "AB-1".data 10
    ("AB-1".data, phraseScore "AB-1".data)
    (by rw [show extract_key_phrases_core PH1.phrase_patterns "AB-1".data 10 =
          [("AB-1".data, phraseScore "AB-1".data)] from kp_ab1]
        simp)
